import Mathlib

/-!
# Verification of the `ramcache` in-memory expiring key-value store

A shallow embedding of the `ramcache` driver of `bartventer/gocache`
(files `ramcache/store.go` and `ramcache/ramcache.go`, latest revision:
generic driver with the `NoExpiry`-aware item struct), together with
proofs of the stated properties of its data model and operations.

Modelling conventions:
* Go `time.Time` instants and `time.Duration` durations are integers
  (nanoseconds); the zero `time.Time` is `0` and `time.Now()` is an
  explicit parameter `now`.
* The `map[string]item` guarded by the `RWMutex` is an association list
  `List (String × item)`; the map invariant (at most one binding per
  key) is the predicate `store.WF`.
* `slices.SortFunc` is embedded as `List.insertionSort` over the
  non-strict relation induced by the source comparator: its contract
  (the output is a permutation of the input, sorted so that adjacent
  elements compare `≤ 0`) is exactly what the theorems use, and the
  relative order of incomparable elements is unspecified by the claims.
* Fallible operations return their error alongside the (possibly
  updated) store, by explicit state passing.
-/

namespace Gocache

/-- `item` from `ramcache/store.go`: byte payload, absolute expiry
instant, and the no-expiry marker. -/
structure item where
  Value : List Nat
  Expiry : Int
  NoExpiry : Bool
deriving DecidableEq, Repr

/-- `item.IsExpired` from `ramcache/store.go`: never expired when
`NoExpiry` is set, otherwise expired iff `time.Now()` is strictly after
`Expiry`. -/
def item.IsExpired (i : item) (now : Int) : Bool :=
  if i.NoExpiry then false else decide (i.Expiry < now)

/-- The `store`'s underlying `map[string]item`, as an association list. -/
abbrev store := List (String × item)

/-- The Go map invariant: at most one binding per key. -/
def store.WF (s : store) : Prop := (s.map Prod.fst).Nodup

/-- `store.Get`: map lookup, returning the item when the key is bound. -/
def store.Get : store → String → Option item
  | [], _ => none
  | (k, it) :: rest, key => if k = key then some it else store.Get rest key

/-- `store.Set`: map assignment, inserting or overwriting the binding. -/
def store.Set : store → String → item → store
  | [], key, it => [(key, it)]
  | (k, v) :: rest, key, it =>
    if k = key then (key, it) :: rest else (k, v) :: store.Set rest key it

/-- `store.Delete`: map deletion, a no-op when the key is absent. -/
def store.Delete : store → String → store
  | [], _ => []
  | (k, v) :: rest, key =>
    if k = key then store.Delete rest key else (k, v) :: store.Delete rest key

/-- `store.Clear`: replaces the map with an empty one. -/
def store.Clear : store → store := fun _ => []

/-- `keyItem` from `ramcache/store.go`: one map entry of the snapshot. -/
structure keyItem where
  Key : String
  Item : item
deriving DecidableEq, Repr

/-- `time.Time.Compare`: `-1` when earlier, `0` when equal, `1` when later. -/
def timeCompare (a b : Int) : Int :=
  if a < b then -1 else if a = b then 0 else 1

/-- The comparator passed to `slices.SortFunc` in
`store.KeyItemsSortedByExpiry`: two no-expiry entries are tied, a
no-expiry entry sorts after any concrete-expiry entry, and two
concrete-expiry entries compare by expiry instant. -/
def keyItemCompare (a b : keyItem) : Int :=
  if a.Item.NoExpiry && b.Item.NoExpiry then 0
  else if a.Item.NoExpiry then 1
  else if b.Item.NoExpiry then -1
  else timeCompare a.Item.Expiry b.Item.Expiry

/-- The non-strict order induced by `keyItemCompare`, used to embed the
`slices.SortFunc` contract. -/
def kiLE (a b : keyItem) : Prop := keyItemCompare a b ≤ 0

instance : DecidableRel kiLE :=
  fun a b => inferInstanceAs (Decidable (keyItemCompare a b ≤ 0))

/-- `store.KeyItemsSortedByExpiry`: all map entries, sorted by the
comparator (closest concrete expiry first, no-expiry entries last). -/
def store.KeyItemsSortedByExpiry (s : store) : List keyItem :=
  List.insertionSort kiLE (s.map fun p => { Key := p.1, Item := p.2 })

/-- The loop body of `ramcache.removeExpiredItems`: walk the sorted
snapshot, deleting expired entries, and break at the first entry that
is not expired. -/
def sweepLoop (now : Int) : List keyItem → store → store
  | [], st => st
  | ki :: rest, st =>
    if ki.Item.IsExpired now then sweepLoop now rest (store.Delete st ki.Key) else st

/-- `ramcache.removeExpiredItems`: one background sweep cycle at a fixed
current time. -/
def removeExpiredItems (now : Int) (st : store) : store :=
  sweepLoop now (store.KeyItemsSortedByExpiry st) st

/-- The error kinds the driver can return (`gocache/errors.go`, plus the
wrapped marshalling failure of `ramcache.set`). -/
inductive CacheError where
  | keyNotFound
  | patternMatchingNotSupported
  | invalidTTL
  | unsupportedValueType
  | marshalFailure (msg : String)
deriving DecidableEq, Repr

/-- `cache.ValidateTTL` from `ttl.go`: a TTL is invalid iff negative. -/
def ValidateTTL (ttl : Int) : Option CacheError :=
  if ttl < 0 then some CacheError.invalidTTL else none

/-- The `interface{}` values accepted by `ramcache.set`, one constructor
per arm of its type switch. A marshaler or reader carries the outcome
of its own marshalling/reading step; `goInt` stands for a value (such
as a bare integer) of a type matching no arm. -/
inductive Value where
  | str (s : String)
  | bytes (b : List Nat)
  | binaryMarshaler (r : Except String (List Nat))
  | textMarshaler (r : Except String (List Nat))
  | jsonMarshaler (r : Except String (List Nat))
  | stringer (s : String)
  | reader (r : Except String (List Nat))
  | goInt (n : Int)
deriving Repr

/-- Go's `[]byte(s)` conversion, at the level of abstraction of the
payload: one byte-sequence per string. -/
def strBytes (s : String) : List Nat := s.toList.map Char.toNat

/-- The serialization type switch of `ramcache.set`: strings and byte
slices are taken as-is, the marshalling capabilities are tried in
source order (each constructor selects exactly one arm), a failing
marshaller is surfaced as a wrapped error, and the default arm rejects
the value. -/
def serialize : Value → Except CacheError (List Nat)
  | .str v => .ok (strBytes v)
  | .bytes v => .ok v
  | .binaryMarshaler (.ok data) => .ok data
  | .binaryMarshaler (.error _) => .error (.marshalFailure "failed to marshal value")
  | .textMarshaler (.ok data) => .ok data
  | .textMarshaler (.error _) => .error (.marshalFailure "failed to marshal value")
  | .jsonMarshaler (.ok data) => .ok data
  | .jsonMarshaler (.error _) => .error (.marshalFailure "failed to marshal value")
  | .stringer v => .ok (strBytes v)
  | .reader (.ok data) => .ok data
  | .reader (.error _) => .error (.marshalFailure "failed to read value")
  | .goInt _ => .error .unsupportedValueType

/-- `ramcache.set`: serialize the value, compute the expiry instant
(`time.Now().Add(expiry)` when the duration is nonzero, the zero
`time.Time` otherwise), and store the freshly built item. The composite
literal `item{Value: data, Expiry: expiryTime}` leaves `NoExpiry` at its
zero value `false`. -/
def ramcache.set (now : Int) (key : String) (value : Value) (expiry : Int)
    (st : store) : Option CacheError × store :=
  match serialize value with
  | .error e => (some e, st)
  | .ok data =>
    let expiryTime : Int := if expiry ≠ 0 then now + expiry else 0
    (none, store.Set st key { Value := data, Expiry := expiryTime, NoExpiry := false })

/-- `ramcache.Set`: store with a zero TTL. -/
def ramcache.Set (now : Int) (key : String) (value : Value) (st : store) :
    Option CacheError × store :=
  ramcache.set now key value 0 st

/-- `ramcache.SetWithTTL`: reject a negative TTL via `ValidateTTL`
before touching the store, then delegate to `ramcache.set`. -/
def ramcache.SetWithTTL (now : Int) (key : String) (value : Value) (ttl : Int)
    (st : store) : Option CacheError × store :=
  match ValidateTTL ttl with
  | some e => (some e, st)
  | none => ramcache.set now key value ttl st

/-- `ramcache.Get`: an absent key, or a present-but-expired item, is
deleted from the store and reported as `KeyNotFound`; otherwise the
stored bytes are returned. -/
def ramcache.Get (now : Int) (key : String) (st : store) :
    Except CacheError (List Nat) × store :=
  match store.Get st key with
  | none => (.error .keyNotFound, store.Delete st key)
  | some it =>
    if it.IsExpired now then (.error .keyNotFound, store.Delete st key)
    else (.ok it.Value, st)

/-- `ramcache.Exists`: a present-but-expired item is deleted and
reported as absent; the error result is always `nil`. -/
def ramcache.Exists (now : Int) (key : String) (st : store) :
    (Bool × Option CacheError) × store :=
  match store.Get st key with
  | none => ((false, none), st)
  | some it =>
    if it.IsExpired now then ((false, none), store.Delete st key)
    else ((true, none), st)

/-- `ramcache.Del`: `KeyNotFound` when the key is absent from the map;
otherwise delete it (with no expiry check). -/
def ramcache.Del (key : String) (st : store) : Option CacheError × store :=
  match store.Get st key with
  | none => (some .keyNotFound, st)
  | some _ => (none, store.Delete st key)

/-- `ramcache.Count`: unconditionally `PatternMatchingNotSupported`,
with count `0` and the store untouched. -/
def ramcache.Count (_pat : String) (st : store) : (Int × Option CacheError) × store :=
  ((0, some .patternMatchingNotSupported), st)

/-- `ramcache.DelKeys`: unconditionally `PatternMatchingNotSupported`,
with the store untouched. -/
def ramcache.DelKeys (_pat : String) (st : store) : Option CacheError × store :=
  (some .patternMatchingNotSupported, st)

theorem store.Get_Set_self (s : store) (k : String) (it : item) :
    store.Get (store.Set s k it) k = some it := by
  induction s with
  | nil => simp [store.Set, store.Get]
  | cons p rest ih =>
    obtain ⟨k', v⟩ := p
    by_cases h : k' = k
    · simp [store.Set, h, store.Get]
    · simp [store.Set, h, store.Get, ih]

theorem store.Get_Delete (s : store) (k k' : String) :
    store.Get (store.Delete s k) k' = if k = k' then none else store.Get s k' := by
  induction s with
  | nil => simp [store.Delete, store.Get]
  | cons p rest ih =>
    obtain ⟨k0, v⟩ := p
    by_cases h : k0 = k
    · subst h
      by_cases h' : k0 = k'
      · subst h'
        simp [store.Delete, store.Get, ih]
      · simp [store.Delete, store.Get, h', ih]
    · by_cases h' : k0 = k'
      · subst h'
        have : ¬ k = k0 := fun hh => h hh.symm
        simp [store.Delete, store.Get, h, this]
      · simp [store.Delete, store.Get, h, h', ih]

theorem store.Get_eq_none_iff (s : store) (k : String) :
    store.Get s k = none ↔ k ∉ s.map Prod.fst := by
  induction s with
  | nil => simp [store.Get]
  | cons p rest ih =>
    obtain ⟨k0, v⟩ := p
    by_cases h : k0 = k
    · simp [store.Get, h]
    · simp [store.Get, h, ih, Ne.symm h]

theorem store.mem_of_Get_eq_some {s : store} {k : String} {it : item}
    (h : store.Get s k = some it) : (k, it) ∈ s := by
  induction s with
  | nil => simp [store.Get] at h
  | cons p rest ih =>
    obtain ⟨k0, v⟩ := p
    by_cases h0 : k0 = k
    · subst h0
      simp [store.Get] at h
      simp [h]
    · simp [store.Get, h0] at h
      simp [ih h]

theorem store.Get_eq_some_of_mem {s : store} (hWF : store.WF s) {k : String} {it : item}
    (hm : (k, it) ∈ s) : store.Get s k = some it := by
  induction s with
  | nil => simp at hm
  | cons p rest ih =>
    obtain ⟨k0, v⟩ := p
    have hWF' : store.WF rest := (List.nodup_cons.mp hWF).2
    rcases List.mem_cons.mp hm with heq | hmem
    · have h1 : k = k0 := congrArg Prod.fst heq
      have h2 : it = v := congrArg Prod.snd heq
      subst h1; subst h2
      simp [store.Get]
    · by_cases h0 : k0 = k
      · exfalso
        have : k0 ∈ rest.map Prod.fst := by
          subst h0
          exact List.mem_map.mpr ⟨(k0, it), hmem, rfl⟩
        exact (List.nodup_cons.mp hWF).1 this
      · simp [store.Get, h0, ih hWF' hmem]

theorem kiLE_iff (a b : keyItem) :
    kiLE a b ↔
      (a.Item.NoExpiry = true → b.Item.NoExpiry = true)
      ∧ (a.Item.NoExpiry = false → b.Item.NoExpiry = false →
          a.Item.Expiry ≤ b.Item.Expiry) := by
  unfold kiLE keyItemCompare timeCompare
  cases ha : a.Item.NoExpiry <;> cases hb : b.Item.NoExpiry
  · simp [ha, hb]
    split_ifs with h1 h2 <;> simp <;> omega
  · simp [ha, hb]
  · simp [ha, hb]
  · simp [ha, hb]

instance kiLE_total : IsTotal keyItem kiLE := by
  constructor
  intro a b
  rw [kiLE_iff, kiLE_iff]
  cases ha : a.Item.NoExpiry <;> cases hb : b.Item.NoExpiry <;> simp [ha, hb] <;> omega

instance kiLE_trans : IsTrans keyItem kiLE := by
  constructor
  intro a b c hab hbc
  rw [kiLE_iff] at hab hbc ⊢
  obtain ⟨h1, h2⟩ := hab
  obtain ⟨h3, h4⟩ := hbc
  cases ha : a.Item.NoExpiry <;> cases hb : b.Item.NoExpiry <;>
    cases hc : c.Item.NoExpiry <;> simp_all <;> omega

theorem keyItemsSortedByExpiry_perm (s : store) :
    ((store.KeyItemsSortedByExpiry s).map fun ki => (ki.Key, ki.Item)).Perm s := by
  have h := (List.perm_insertionSort kiLE (s.map fun p => { Key := p.1, Item := p.2 : keyItem }))
  have h2 := h.map (fun ki : keyItem => (ki.Key, ki.Item))
  rw [List.map_map] at h2
  have hid : ((fun ki : keyItem => (ki.Key, ki.Item)) ∘
      fun p : String × item => ({ Key := p.1, Item := p.2 } : keyItem)) = id := by
    funext p
    rfl
  rw [hid, List.map_id] at h2
  exact h2

theorem keyItemsSortedByExpiry_pairwise (s : store) :
    (store.KeyItemsSortedByExpiry s).Pairwise kiLE :=
  List.sorted_insertionSort kiLE _

/-- Claim C3: on a well-formed store, `KeyItemsSortedByExpiry` returns
exactly one entry per stored key (a permutation of the map's bindings,
with no duplicate keys), ordered so that a no-expiry entry never
precedes a concrete-expiry entry and, among concrete-expiry entries,
the earlier expiry comes first; the relative order of two no-expiry
entries is left unconstrained. -/
theorem keyItemsSortedByExpiry_spec (s : store) (hWF : store.WF s) :
    ((store.KeyItemsSortedByExpiry s).map fun ki => (ki.Key, ki.Item)).Perm s
    ∧ ((store.KeyItemsSortedByExpiry s).map keyItem.Key).Nodup
    ∧ (store.KeyItemsSortedByExpiry s).Pairwise (fun a b =>
        (a.Item.NoExpiry = true → b.Item.NoExpiry = true)
        ∧ (a.Item.NoExpiry = false → b.Item.NoExpiry = false →
            a.Item.Expiry ≤ b.Item.Expiry)) := by
  refine ⟨keyItemsSortedByExpiry_perm s, ?_, ?_⟩
  · have h := (keyItemsSortedByExpiry_perm s).map Prod.fst
    rw [List.map_map] at h
    have h3 : ((store.KeyItemsSortedByExpiry s).map
        (Prod.fst ∘ fun ki => (ki.Key, ki.Item))).Nodup := h.nodup_iff.mpr hWF
    simpa [Function.comp] using h3
  · exact (keyItemsSortedByExpiry_pairwise s).imp (fun h => (kiLE_iff _ _).mp h)

theorem sweepLoop_eq_foldl (now : Int) (L : List keyItem) (st : store) :
    sweepLoop now L st =
      (L.takeWhile fun ki => ki.Item.IsExpired now).foldl
        (fun acc ki => store.Delete acc ki.Key) st := by
  induction L generalizing st with
  | nil => simp [sweepLoop]
  | cons ki rest ih =>
    by_cases h : ki.Item.IsExpired now
    · simp [sweepLoop, h, List.takeWhile_cons, ih]
    · simp [sweepLoop, h, List.takeWhile_cons]

theorem Get_foldl_Delete (P : List keyItem) (st : store) (k : String) :
    store.Get (P.foldl (fun acc ki => store.Delete acc ki.Key) st) k =
      if k ∈ P.map keyItem.Key then none else store.Get st k := by
  induction P generalizing st with
  | nil => simp
  | cons ki rest ih =>
    simp only [List.foldl_cons, ih, List.map_cons, List.mem_cons]
    by_cases hk : k ∈ rest.map keyItem.Key
    · simp [hk]
    · by_cases he : ki.Key = k
      · simp [hk, he, store.Get_Delete]
      · have : ¬ k = ki.Key := fun hh => he hh.symm
        simp [hk, he, this, store.Get_Delete]

theorem mem_takeWhile_of_pairwise {α : Type} {R : α → α → Prop} {p : α → Bool}
    {l : List α} (hp : l.Pairwise R)
    (hcl : ∀ a b, R a b → p b = true → p a = true)
    {x : α} (hx : x ∈ l) (hpx : p x = true) : x ∈ l.takeWhile p := by
  induction l with
  | nil => simp at hx
  | cons y ys ih =>
    rcases List.mem_cons.mp hx with rfl | hmem
    · simp [List.takeWhile_cons, hpx]
    · have hy : p y = true := hcl y x ((List.pairwise_cons.mp hp).1 x hmem) hpx
      have := ih (List.pairwise_cons.mp hp).2 hmem
      simp [List.takeWhile_cons, hy, this]

theorem mem_of_mem_takeWhile {α : Type} {p : α → Bool} {l : List α} {x : α}
    (h : x ∈ l.takeWhile p) : x ∈ l ∧ p x = true := by
  induction l with
  | nil => simp at h
  | cons y ys ih =>
    by_cases hy : p y = true
    · rw [List.takeWhile_cons, if_pos hy] at h
      rcases List.mem_cons.mp h with rfl | hmem
      · exact ⟨List.mem_cons_self _ _, hy⟩
      · exact ⟨List.mem_cons_of_mem _ (ih hmem).1, (ih hmem).2⟩
    · rw [List.takeWhile_cons, if_neg hy] at h
      simp at h

theorem kiLE_expired_closed (now : Int) (a b : keyItem) (hab : kiLE a b)
    (hb : b.Item.IsExpired now = true) : a.Item.IsExpired now = true := by
  rw [kiLE_iff] at hab
  unfold item.IsExpired at hb ⊢
  cases hB : b.Item.NoExpiry
  · cases hA : a.Item.NoExpiry
    · simp at hb ⊢
      have h2 := hab.2 hA hB
      omega
    · exact absurd (hab.1 hA) (by simp [hB])
  · simp [hB] at hb

/-- Claim C4: one call to `removeExpiredItems` at a fixed current time
deletes exactly the keys whose items are expired at that time, and
every non-expired and no-expiry binding survives unchanged — even
though the walk breaks at the first non-expired entry of the sorted
snapshot. -/
theorem removeExpiredItems_spec (now : Int) (s : store) (hWF : store.WF s) (k : String) :
    store.Get (removeExpiredItems now s) k =
      (store.Get s k).bind fun it => if it.IsExpired now then none else some it := by
  have hperm := keyItemsSortedByExpiry_perm s
  have hpw := keyItemsSortedByExpiry_pairwise s
  rw [removeExpiredItems, sweepLoop_eq_foldl, Get_foldl_Delete]
  have hcl : ∀ a b : keyItem, kiLE a b → (fun ki : keyItem => ki.Item.IsExpired now) b = true →
      (fun ki : keyItem => ki.Item.IsExpired now) a = true :=
    fun a b hab hb => kiLE_expired_closed now a b hab hb
  by_cases hmem : k ∈ ((store.KeyItemsSortedByExpiry s).takeWhile
      fun ki => ki.Item.IsExpired now).map keyItem.Key
  · rw [if_pos hmem]
    obtain ⟨ki, hkiP, hkey⟩ := List.mem_map.mp hmem
    obtain ⟨hkiL, hexp⟩ := mem_of_mem_takeWhile hkiP
    have hpair : (k, ki.Item) ∈ s := by
      have h1 : (ki.Key, ki.Item) ∈ s :=
        hperm.mem_iff.mp (List.mem_map_of_mem (fun x : keyItem => (x.Key, x.Item)) hkiL)
      rwa [hkey] at h1
    have hget : store.Get s k = some ki.Item := store.Get_eq_some_of_mem hWF hpair
    have hexp' : ki.Item.IsExpired now = true := hexp
    rw [hget]
    simp [hexp']
  · rw [if_neg hmem]
    cases hget : store.Get s k with
    | none => rfl
    | some it =>
      by_cases hexp : it.IsExpired now = true
      · exfalso
        have hmem_s : (k, it) ∈ s := store.mem_of_Get_eq_some hget
        have hkiL : (⟨k, it⟩ : keyItem) ∈ store.KeyItemsSortedByExpiry s := by
          have h1 := hperm.mem_iff.mpr hmem_s
          obtain ⟨ki, hkiL, hp⟩ := List.mem_map.mp h1
          have hk : ki = ⟨k, it⟩ := by
            cases ki
            cases hp
            rfl
          exact hk ▸ hkiL
        have htw := mem_takeWhile_of_pairwise hpw hcl hkiL hexp
        exact hmem (List.mem_map.mpr ⟨⟨k, it⟩, htw, rfl⟩)
      · simp [hexp]

/-- Claim C5: after a successful `SetWithTTL` with TTL `t > 0` at write
time `wt`, `Get` returns the stored bytes with no error at any time
strictly before `wt + t`, and returns `KeyNotFound` at any time
strictly after `wt + t`. -/
theorem setWithTTL_get_window (wt t now : Int) (key : String) (v : Value)
    (data : List Nat) (s s' : store) (hser : serialize v = .ok data) (ht : 0 < t)
    (hset : ramcache.SetWithTTL wt key v t s = (none, s')) :
    (now < wt + t → ramcache.Get now key s' = (.ok data, s'))
    ∧ (wt + t < now → (ramcache.Get now key s').1 = .error .keyNotFound) := by
  have hvt : ValidateTTL t = none := by
    unfold ValidateTTL
    rw [if_neg (by omega)]
  unfold ramcache.SetWithTTL at hset
  rw [hvt] at hset
  unfold ramcache.set at hset
  rw [hser] at hset
  simp only [if_pos (show t ≠ 0 by omega)] at hset
  have hs' : s' = store.Set s key { Value := data, Expiry := wt + t, NoExpiry := false } :=
    (congrArg Prod.snd hset).symm
  have hgot : store.Get s' key =
      some { Value := data, Expiry := wt + t, NoExpiry := false } := by
    rw [hs']
    exact store.Get_Set_self s key _
  constructor
  · intro hlt
    have hne : ({ Value := data, Expiry := wt + t, NoExpiry := false } : item).IsExpired now
        = false := by
      unfold item.IsExpired
      simp
      omega
    unfold ramcache.Get
    rw [hgot]
    simp [hne]
  · intro hgt
    have hex : ({ Value := data, Expiry := wt + t, NoExpiry := false } : item).IsExpired now
        = true := by
      unfold item.IsExpired
      simp
      omega
    unfold ramcache.Get
    rw [hgot]
    simp [hex]

/-- Claim C6: `Get` returns `KeyNotFound` when the key is absent, and
when the key is present but expired it deletes the key and returns
`KeyNotFound`, otherwise it returns the stored bytes; `Exists` returns
`(false, nil)` in the same two situations — deleting the expired entry,
with no error on absence — and `(true, nil)` otherwise. -/
theorem get_exists_cases (now : Int) (k : String) (s : store) :
    (store.Get s k = none →
        ramcache.Get now k s = (.error .keyNotFound, store.Delete s k)
        ∧ ramcache.Exists now k s = ((false, none), s))
    ∧ (∀ it, store.Get s k = some it → it.IsExpired now = true →
        ramcache.Get now k s = (.error .keyNotFound, store.Delete s k)
        ∧ ramcache.Exists now k s = ((false, none), store.Delete s k))
    ∧ (∀ it, store.Get s k = some it → it.IsExpired now = false →
        ramcache.Get now k s = (.ok it.Value, s)
        ∧ ramcache.Exists now k s = ((true, none), s)) := by
  refine ⟨?_, ?_, ?_⟩
  · intro h
    unfold ramcache.Get ramcache.Exists
    rw [h]
    exact ⟨rfl, rfl⟩
  · intro it h hexp
    unfold ramcache.Get ramcache.Exists
    rw [h]
    exact ⟨by simp [hexp], by simp [hexp]⟩
  · intro it h hexp
    unfold ramcache.Get ramcache.Exists
    rw [h]
    exact ⟨by simp [hexp], by simp [hexp]⟩

/-- Claim C7: for every negative TTL, `SetWithTTL` returns `InvalidTTL`
and leaves the store completely unchanged. -/
theorem setWithTTL_negative (now ttl : Int) (k : String) (v : Value) (s : store)
    (h : ttl < 0) : ramcache.SetWithTTL now k v ttl s = (some .invalidTTL, s) := by
  unfold ramcache.SetWithTTL ValidateTTL
  rw [if_pos h]

/-- Claim C8: for a value matching no arm of the serialization type
switch (a bare integer), `Set` and `SetWithTTL` (with a valid TTL)
return `UnsupportedValueType` and leave the store unchanged. -/
theorem set_unsupported_value (now ttl : Int) (k : String) (n : Int) (s : store)
    (h : 0 ≤ ttl) :
    ramcache.Set now k (.goInt n) s = (some .unsupportedValueType, s)
    ∧ ramcache.SetWithTTL now k (.goInt n) ttl s = (some .unsupportedValueType, s) := by
  constructor
  · rfl
  · unfold ramcache.SetWithTTL ValidateTTL
    rw [if_neg (by omega)]
    rfl

/-- Claim C9: `Count` and `DelKeys` unconditionally return
`PatternMatchingNotSupported` (with count `0` for `Count`) and never
modify the store. -/
theorem count_delKeys_not_supported (pat : String) (st : store) :
    ramcache.Count pat st = ((0, some .patternMatchingNotSupported), st)
    ∧ ramcache.DelKeys pat st = (some .patternMatchingNotSupported, st) :=
  ⟨rfl, rfl⟩

/-- Claim C10: `Del` removes any key physically present in the map and
returns `nil`, even when the stored item is already logically expired,
and returns `KeyNotFound` exactly when the key is absent. -/
theorem del_spec (k : String) (s : store) :
    (∀ it, store.Get s k = some it → ramcache.Del k s = (none, store.Delete s k))
    ∧ (store.Get s k = none → ramcache.Del k s = (some .keyNotFound, s))
    ∧ ((ramcache.Del k s).1 = some .keyNotFound ↔ store.Get s k = none) := by
  refine ⟨?_, ?_, ?_⟩
  · intro it h
    unfold ramcache.Del
    rw [h]
  · intro h
    unfold ramcache.Del
    rw [h]
  · unfold ramcache.Del
    cases h : store.Get s k <;> simp

/-- Claim C1, divergence: the claim states that an item stored via
`Set` (zero TTL) carries no expiry and is never removed by the sweep.
In the code, `ramcache.set` builds `item{Value: data, Expiry: expiryTime}`
without setting `NoExpiry`, and a zero TTL leaves `Expiry` at the zero
`time.Time`; such an item is `IsExpired` at any later clock reading, so
the very first sweep deletes it. Here: `Set` at time 3 succeeds and
stores `NoExpiry = false`, `Expiry = 0`, and the sweep at time 4
removes the key. -/
theorem set_zero_ttl_swept :
    (ramcache.Set 3 "k1" (Value.str "v1") []).1 = none
    ∧ store.Get ((ramcache.Set 3 "k1" (Value.str "v1") []).2) "k1"
        = some { Value := strBytes "v1", Expiry := 0, NoExpiry := false }
    ∧ store.Get (removeExpiredItems 4 ((ramcache.Set 3 "k1" (Value.str "v1") []).2)) "k1"
        = none :=
  ⟨rfl, rfl, rfl⟩

/-- Claim C2, divergence: the claim states that `Get` immediately after
a successful `Set` returns the stored bytes with no error. In the code
the freshly stored item has `NoExpiry = false` and the zero `time.Time`
as expiry, so `Get` finds it already expired and returns `KeyNotFound`:
`Set` at time 5 succeeds, yet `Get` at the same time 5 fails. -/
theorem set_then_get_key_not_found :
    (ramcache.Set 5 "k1" (Value.str "v1") []).1 = none
    ∧ (ramcache.Get 5 "k1" ((ramcache.Set 5 "k1" (Value.str "v1") []).2)).1
        = .error .keyNotFound :=
  ⟨rfl, rfl⟩

/-- Witness for claim C3, at a three-entry store. -/
theorem keyItemsSortedByExpiry_spec_witness :
    store.WF [("a", { Value := [1], Expiry := 20, NoExpiry := false }),
      ("b", { Value := [2], Expiry := 10, NoExpiry := false }),
      ("c", { Value := [3], Expiry := 0, NoExpiry := true })]
    ∧ (((store.KeyItemsSortedByExpiry
          [("a", { Value := [1], Expiry := 20, NoExpiry := false }),
           ("b", { Value := [2], Expiry := 10, NoExpiry := false }),
           ("c", { Value := [3], Expiry := 0, NoExpiry := true })]).map
          fun ki => (ki.Key, ki.Item)).Perm
        [("a", { Value := [1], Expiry := 20, NoExpiry := false }),
         ("b", { Value := [2], Expiry := 10, NoExpiry := false }),
         ("c", { Value := [3], Expiry := 0, NoExpiry := true })]
      ∧ ((store.KeyItemsSortedByExpiry
          [("a", { Value := [1], Expiry := 20, NoExpiry := false }),
           ("b", { Value := [2], Expiry := 10, NoExpiry := false }),
           ("c", { Value := [3], Expiry := 0, NoExpiry := true })]).map keyItem.Key).Nodup
      ∧ (store.KeyItemsSortedByExpiry
          [("a", { Value := [1], Expiry := 20, NoExpiry := false }),
           ("b", { Value := [2], Expiry := 10, NoExpiry := false }),
           ("c", { Value := [3], Expiry := 0, NoExpiry := true })]).Pairwise (fun a b =>
            (a.Item.NoExpiry = true → b.Item.NoExpiry = true)
            ∧ (a.Item.NoExpiry = false → b.Item.NoExpiry = false →
                a.Item.Expiry ≤ b.Item.Expiry))) :=
  ⟨by unfold store.WF; decide, keyItemsSortedByExpiry_spec _ (by unfold store.WF; decide)⟩

/-- Witness for claim C4, at a store holding an expired, a live and a
no-expiry entry, swept at time 15. -/
theorem removeExpiredItems_spec_witness :
    store.WF [("x", { Value := [1], Expiry := 5, NoExpiry := false }),
      ("y", { Value := [2], Expiry := 30, NoExpiry := false }),
      ("z", { Value := [3], Expiry := 0, NoExpiry := true })]
    ∧ store.Get (removeExpiredItems 15
        [("x", { Value := [1], Expiry := 5, NoExpiry := false }),
         ("y", { Value := [2], Expiry := 30, NoExpiry := false }),
         ("z", { Value := [3], Expiry := 0, NoExpiry := true })]) "x"
      = (store.Get [("x", { Value := [1], Expiry := 5, NoExpiry := false }),
          ("y", { Value := [2], Expiry := 30, NoExpiry := false }),
          ("z", { Value := [3], Expiry := 0, NoExpiry := true })] "x").bind
          fun it => if it.IsExpired 15 then none else some it :=
  ⟨by unfold store.WF; decide, removeExpiredItems_spec 15 _ (by unfold store.WF; decide) "x"⟩

/-- Witness for claim C5, at a write at time 0 with TTL 10 read at time 5. -/
theorem setWithTTL_get_window_witness :
    serialize (Value.str "v") = .ok (strBytes "v")
    ∧ (0 : Int) < 10
    ∧ ramcache.SetWithTTL 0 "k" (Value.str "v") 10 []
        = (none, (ramcache.SetWithTTL 0 "k" (Value.str "v") 10 []).2)
    ∧ ((5 < (0 : Int) + 10 →
          ramcache.Get 5 "k" (ramcache.SetWithTTL 0 "k" (Value.str "v") 10 []).2
            = (.ok (strBytes "v"), (ramcache.SetWithTTL 0 "k" (Value.str "v") 10 []).2))
        ∧ ((0 : Int) + 10 < 5 →
          (ramcache.Get 5 "k" (ramcache.SetWithTTL 0 "k" (Value.str "v") 10 []).2).1
            = .error .keyNotFound)) :=
  ⟨rfl, by decide, rfl,
    setWithTTL_get_window 0 10 5 "k" (Value.str "v") (strBytes "v") []
      (ramcache.SetWithTTL 0 "k" (Value.str "v") 10 []).2 rfl (by decide) rfl⟩

/-- Witness for claim C6, covering the absent, expired and live cases. -/
theorem get_exists_cases_witness :
    (ramcache.Get 10 "gone" [("old", { Value := [7], Expiry := 1, NoExpiry := false }),
        ("fresh", { Value := [8], Expiry := 100, NoExpiry := false })]
      = (.error .keyNotFound, store.Delete
          [("old", { Value := [7], Expiry := 1, NoExpiry := false }),
           ("fresh", { Value := [8], Expiry := 100, NoExpiry := false })] "gone")
      ∧ ramcache.Exists 10 "gone" [("old", { Value := [7], Expiry := 1, NoExpiry := false }),
          ("fresh", { Value := [8], Expiry := 100, NoExpiry := false })]
        = ((false, none), [("old", { Value := [7], Expiry := 1, NoExpiry := false }),
            ("fresh", { Value := [8], Expiry := 100, NoExpiry := false })]))
    ∧ (ramcache.Get 10 "old" [("old", { Value := [7], Expiry := 1, NoExpiry := false }),
          ("fresh", { Value := [8], Expiry := 100, NoExpiry := false })]
        = (.error .keyNotFound, store.Delete
            [("old", { Value := [7], Expiry := 1, NoExpiry := false }),
             ("fresh", { Value := [8], Expiry := 100, NoExpiry := false })] "old")
      ∧ ramcache.Exists 10 "old" [("old", { Value := [7], Expiry := 1, NoExpiry := false }),
          ("fresh", { Value := [8], Expiry := 100, NoExpiry := false })]
        = ((false, none), store.Delete
            [("old", { Value := [7], Expiry := 1, NoExpiry := false }),
             ("fresh", { Value := [8], Expiry := 100, NoExpiry := false })] "old"))
    ∧ (ramcache.Get 10 "fresh" [("old", { Value := [7], Expiry := 1, NoExpiry := false }),
          ("fresh", { Value := [8], Expiry := 100, NoExpiry := false })]
        = (.ok [8], [("old", { Value := [7], Expiry := 1, NoExpiry := false }),
            ("fresh", { Value := [8], Expiry := 100, NoExpiry := false })])
      ∧ ramcache.Exists 10 "fresh" [("old", { Value := [7], Expiry := 1, NoExpiry := false }),
          ("fresh", { Value := [8], Expiry := 100, NoExpiry := false })]
        = ((true, none), [("old", { Value := [7], Expiry := 1, NoExpiry := false }),
            ("fresh", { Value := [8], Expiry := 100, NoExpiry := false })])) :=
  ⟨(get_exists_cases 10 "gone" _).1 (by decide),
   (get_exists_cases 10 "old" _).2.1 { Value := [7], Expiry := 1, NoExpiry := false }
     (by decide) (by decide),
   (get_exists_cases 10 "fresh" _).2.2 { Value := [8], Expiry := 100, NoExpiry := false }
     (by decide) (by decide)⟩

/-- Witness for claim C7, at TTL -1. -/
theorem setWithTTL_negative_witness :
    (-1 : Int) < 0
    ∧ ramcache.SetWithTTL 7 "k" (Value.str "v") (-1)
        [("q", { Value := [9], Expiry := 1, NoExpiry := false })]
      = (some .invalidTTL, [("q", { Value := [9], Expiry := 1, NoExpiry := false })]) :=
  ⟨by decide, setWithTTL_negative 7 (-1) "k" (Value.str "v") _ (by decide)⟩

/-- Witness for claim C8, at the bare integer 12345. -/
theorem set_unsupported_value_witness :
    (0 : Int) ≤ 1
    ∧ (ramcache.Set 0 "k" (.goInt 12345) [] = (some .unsupportedValueType, [])
      ∧ ramcache.SetWithTTL 0 "k" (.goInt 12345) 1 [] = (some .unsupportedValueType, [])) :=
  ⟨by decide, set_unsupported_value 0 1 "k" 12345 [] (by decide)⟩

/-- Witness for claim C10, at a present-but-expired entry and an absent key. -/
theorem del_spec_witness :
    ramcache.Del "old" [("old", { Value := [7], Expiry := 1, NoExpiry := false })]
      = (none, store.Delete [("old", { Value := [7], Expiry := 1, NoExpiry := false })] "old")
    ∧ ramcache.Del "nope" [("old", { Value := [7], Expiry := 1, NoExpiry := false })]
      = (some .keyNotFound, [("old", { Value := [7], Expiry := 1, NoExpiry := false })]) :=
  ⟨(del_spec "old" _).1 { Value := [7], Expiry := 1, NoExpiry := false } (by decide),
   (del_spec "nope" _).2.1 (by decide)⟩

end Gocache
